import Mathlib

/-!
Verification of the cell-segmentation dataset pipeline
(`cellvit/training/datasets/segmentation_dataset.py`).

The development shallowly embeds the four core pieces of the file:

* the per-sample annotation extraction loop of `SegmentationDataset.cache_dataset`
  (lines 106-124): iterate the distinct nonzero labels of the instance map in
  the order produced by `np.unique`, compute the rounded center of mass of each
  instance mask, gather the type-map values under the mask, drop zeros, and pick
  the type by `np.argmax` over the counts returned by `np.unique(..., return_counts=True)`;
* the cache build loop itself (lines 91-124), as explicit state passing over a
  pair of string-keyed partial maps (the two Python dicts);
* `SegmentationDataset.__getitem__` (lines 129-163), including the
  index-based re-synchronization `types = [types[idx] for idx, _ in enumerate(detections)]`;
* `SegmentationDataset.collate_batch` (lines 165-185).

Python exceptions are modelled with `Except`/`Option`: a `none`/`.error`
result stands for the corresponding runtime exception (numpy `IndexError`
for a boolean index whose shape does not match the indexed array, numpy
`ValueError` for `argmax` of an empty sequence, Python `KeyError` for a
missing dict key, Python `IndexError` for an out-of-range list index).
Images are abstracted by a type parameter: the pipeline never inspects
pixel data of the image, it only threads it through injected callables.
-/

deriving instance DecidableEq for Except

namespace SegDataset

/-- A cached cell annotation, the tuple
`(int(np.round(x)), int(np.round(y)), int(type_ids[np.argmax(counts)]))`
appended to `cell_annot` at lines 117-123 of the source.  Coordinates of a
center of mass of pixel positions are non-negative, so `Nat` suffices. -/
structure CellRecord where
  x : Nat
  y : Nat
  ty : Nat
deriving DecidableEq, Repr

/-- A 2D integer grid (`inst_map` / `type_map` after `astype(np.uint32)`),
row-major as a list of rows. -/
abbrev Map2 := List (List Nat)

/-- The row-length profile of a grid.  Two numpy 2D arrays have equal shape
iff their row profiles agree (same number of rows, same length per row). -/
def rowProfile (m : Map2) : List Nat := m.map List.length

/-- Insert a value into a strictly sorted list, skipping duplicates. -/
def insertUnique (x : Nat) : List Nat → List Nat
  | [] => [x]
  | y :: ys =>
    if x < y then x :: y :: ys
    else if x = y then y :: ys
    else y :: insertUnique x ys

/-- `np.unique` of a flattened grid: the distinct values in ascending order. -/
def uniqueSorted (l : List Nat) : List Nat := l.foldr insertUnique []

/-- The `(row, col)` positions of the boolean mask `inst_map == inst_id`
(row-major). -/
def maskPositions (m : Map2) (label : Nat) : List (Nat × Nat) :=
  (m.enum.map fun rc =>
    rc.2.enum.filterMap fun cv =>
      if cv.2 = label then some (rc.1, cv.1) else none).flatten

/-- `int(np.round(s / c))` for non-negative integers `s`, `c`, computed
exactly: numpy rounds half to even.  (`np.round` acts on the float mean
returned by `scipy.ndimage.center_of_mass`; for the exact rational value
`s / c` this is banker's rounding.)  `c = 0` cannot occur in the pipeline
(every enumerated label has a non-empty mask). -/
def roundHalfEven (s c : Nat) : Nat :=
  let q := s / c
  let r := s % c
  if 2 * r < c then q
  else if c < 2 * r then q + 1
  else if q % 2 = 0 then q else q + 1

/-- The values of `tm` at the positions (row-major) where `im` equals
`label`, assuming equal shapes. -/
def maskTypeVals (tm im : Map2) (label : Nat) : List Nat :=
  (tm.flatten.zip im.flatten).filterMap fun p =>
    if p.2 = label then some p.1 else none

/-- numpy boolean indexing `type_map[inst_map == inst_id]`: the values of
`type_map` at the mask positions, in row-major order.  numpy raises
`IndexError` when the boolean index's shape differs from the indexed
array's shape; that failure is the `none` case. -/
def maskGather (tm im : Map2) (label : Nat) : Option (List Nat) :=
  if rowProfile tm = rowProfile im then some (maskTypeVals tm im label)
  else none

/-- `cell_type[cell_type != 0]` (line 115): drop the zero-valued (no-class)
entries. -/
def dropZeros (l : List Nat) : List Nat := l.filter fun v => decide (v ≠ 0)

/-- `np.argmax`: the index of the first occurrence of the maximum.
`np.argmax` of an empty sequence raises `ValueError`, the `none` case. -/
def argmaxFirst : List Nat → Option Nat
  | [] => none
  | x :: xs =>
    match argmaxFirst xs with
    | none => some 0
    | some j => if x < xs.getD j 0 then some (j + 1) else some 0

/-- The failure modes of the extraction loop body: the boolean-index shape
mismatch (`IndexError`) and `argmax` of an empty sequence (`ValueError`). -/
inductive ExtractErr where
  | indexMismatch
  | emptyArgmax
deriving DecidableEq, Repr

/-- The body of the per-label loop of `cache_dataset` (lines 110-123):
center of mass of the instance mask, gather of the type-map values under
the mask, zero-drop, `np.unique(..., return_counts=True)` and the
`argmax`-selected type. -/
def extractCell (inst_map type_map : Map2) (inst_id : Nat) : Except ExtractErr CellRecord :=
  let ps := maskPositions inst_map inst_id
  let ySum := (ps.map Prod.fst).sum
  let xSum := (ps.map Prod.snd).sum
  match maskGather type_map inst_map inst_id with
  | none => .error .indexMismatch
  | some cell_type =>
    let vals := dropZeros cell_type
    let type_ids := uniqueSorted vals
    let counts := type_ids.map fun t => vals.count t
    match argmaxFirst counts with
    | none => .error .emptyArgmax
    | some i =>
      .ok ⟨roundHalfEven xSum ps.length, roundHalfEven ySum ps.length, type_ids.getD i 0⟩

/-- The labels the extraction loop iterates: `np.unique(inst_map)` with the
`inst_id == 0` iteration skipped by `continue` (lines 107-109). -/
def extractionLabels (inst_map : Map2) : List Nat :=
  (uniqueSorted inst_map.flatten).filter fun v => decide (v ≠ 0)

/-- The whole per-sample extraction loop (lines 106-124): one `CellRecord`
appended per nonzero label, in `np.unique` order; the first exception
aborts the loop. -/
def extract (inst_map type_map : Map2) : Except ExtractErr (List CellRecord) :=
  (extractionLabels inst_map).mapM (extractCell inst_map type_map)

/-- One input sample of the cache build, after file loading: the stem
(`img_path.stem`), the decoded image, and the `inst_map` / `type_map`
arrays of the `.npy` payload (already `astype(np.uint32)`). -/
structure Sample (Img : Type) where
  stem : String
  img : Img
  inst_map : Map2
  type_map : Map2

/-- The two module-level caches, `self.cache_images` and
`self.cache_annotations`, as partial maps keyed by stem. -/
@[ext]
structure CacheState (Img : Type) where
  images : String → Option Img
  cacheAnnot : String → Option (List CellRecord)

/-- `cache_dataset` (lines 91-124) over already-loaded samples, threading
the cache state.  Per sample: store the RGB-converted image, run the
extraction loop, store its result.  An extraction exception aborts the
build (the boolean flag is `false`), leaving the entries written so far —
including the failing sample's image, stored before extraction — in place.
`convertRGB` is the `img.convert("RGB")` step, opaque to this model. -/
def cacheDataset {Img : Type} (convertRGB : Img → Img) :
    CacheState Img → List (Sample Img) → CacheState Img × Bool
  | st, [] => (st, true)
  | st, s :: ss =>
    let st1 : CacheState Img :=
      { st with images := Function.update st.images s.stem (some (convertRGB s.img)) }
    match extract s.inst_map s.type_map with
    | .error _ => (st1, false)
    | .ok recs =>
      cacheDataset convertRGB
        { st1 with cacheAnnot := Function.update st1.cacheAnnot s.stem (some recs) } ss

/-- The key/value writes `cache_dataset` performs on `cache_images`, in
order, up to and including the sample at which extraction fails. -/
def imgWrites {Img : Type} (convertRGB : Img → Img) : List (Sample Img) → List (String × Img)
  | [] => []
  | s :: ss =>
    (s.stem, convertRGB s.img) ::
      match extract s.inst_map s.type_map with
      | .error _ => []
      | .ok _ => imgWrites convertRGB ss

/-- The key/value writes `cache_dataset` performs on `cache_annotations`,
in order, up to the sample at which extraction fails. -/
def annWrites {Img : Type} : List (Sample Img) → List (String × List CellRecord)
  | [] => []
  | s :: ss =>
    match extract s.inst_map s.type_map with
    | .error _ => []
    | .ok recs => (s.stem, recs) :: annWrites ss

/-- Whether the whole build loop finishes without an extraction exception. -/
def buildOk {Img : Type} : List (Sample Img) → Bool
  | [] => true
  | s :: ss =>
    match extract s.inst_map s.type_map with
    | .error _ => false
    | .ok _ => buildOk ss

/-- Apply a list of dict writes in order (later writes win). -/
def applyWrites {α β : Type} [DecidableEq α] (f : α → Option β) (ws : List (α × β)) :
    α → Option β :=
  ws.foldl (fun g w => Function.update g w.1 (some w.2)) f

/-- The last value written for a key by a list of writes, if any. -/
def lookupLast {α β : Type} [DecidableEq α] : List (α × β) → α → Option β
  | [], _ => none
  | w :: ws, a =>
    match lookupLast ws a with
    | some v => some v
    | none => if w.1 = a then some w.2 else none

/-- The failure modes of `__getitem__`: a Python `IndexError` (out-of-range
list index, including `types[idx]` at line 161) and a Python `KeyError`
(cache dict miss at lines 144-145). -/
inductive GetErr where
  | indexError
  | keyError
deriving DecidableEq, Repr

/-- `types = [types[idx] for idx, _ in enumerate(detections)]` (line 161):
index the original type list by each position of the transformed keypoint
list; an index beyond the original list raises `IndexError`. -/
def resyncTypes (types : List Int) (n : Nat) : Except GetErr (List Int) :=
  (List.range n).mapM fun idx =>
    match types[idx]? with
    | some t => Except.ok t
    | none => Except.error GetErr.indexError

/-- `__getitem__` (lines 129-163).  The stain-normalization branch
(lines 149-153) is the injected `normalizer` applied when
`normalize_stains`; the PIL→numpy conversion at line 155 is a
representation cast on the abstract image type and is dropped.  The
injected transform receives the image and the keypoint list and returns
both, possibly filtered (`if self.transforms:` at line 157 is the `some`
case). -/
def getItem {Img : Type} (images : List String) (cache_images : String → Option Img)
    (cacheAnnot : String → Option (List CellRecord))
    (normalize_stains : Bool) (normalizer : Img → Img)
    (transforms : Option (Img → List (Int × Int) → Img × List (Int × Int)))
    (index : Nat) : Except GetErr (Img × List (Int × Int) × List Int × String) :=
  match images[index]? with
  | none => .error .indexError
  | some img_name =>
    match cache_images img_name with
    | none => .error .keyError
    | some img0 =>
      match cacheAnnot img_name with
      | none => .error .keyError
      | some cell_annot =>
        let detections : List (Int × Int) := cell_annot.map fun r => ((r.x : Int), (r.y : Int))
        let types : List Int := cell_annot.map fun r => (r.ty : Int) - 1
        let img1 := if normalize_stains then normalizer img0 else img0
        match transforms with
        | none => .ok (img1, detections, types, img_name)
        | some t =>
          let tr := t img1 detections
          match resyncTypes types tr.2.length with
          | .error e => .error e
          | .ok types2 => .ok (tr.1, tr.2, types2, img_name)

/-- A stacked tensor: its shape, and its entries flattened row-major.
Entry values are opaque integers; only shapes matter to the collation
contract. -/
structure Tensor where
  shape : List Nat
  data : List Int
deriving DecidableEq, Repr

/-- `torch.stack`: requires a non-empty list of equal-shape tensors
(raises otherwise, the `none` case) and prepends a new batch dimension. -/
def stack (ts : List Tensor) : Option Tensor :=
  match ts with
  | [] => none
  | t :: _ =>
    if ts.all fun u => decide (u.shape = t.shape) then
      some ⟨ts.length :: t.shape, (ts.map Tensor.data).flatten⟩
    else none

/-- `collate_batch` (lines 165-185): `zip(*batch)` (which raises on an
empty batch — unpacking four components from an empty `zip`), then
`torch.stack` on the images, with the detection lists, type lists and
names kept as per-sample lists. -/
def collate_batch (batch : List (Tensor × List (Int × Int) × List Int × String)) :
    Option (Tensor × List (List (Int × Int)) × List (List Int) × List String) :=
  match batch with
  | [] => none
  | _ :: _ =>
    match stack (batch.map fun b => b.1) with
    | none => none
    | some imgs =>
      some (imgs, batch.map fun b => b.2.1, batch.map fun b => b.2.2.1,
        batch.map fun b => b.2.2.2)

/-! ### Library of supporting lemmas -/

theorem mem_insertUnique (a x : Nat) (l : List Nat) :
    a ∈ insertUnique x l ↔ a = x ∨ a ∈ l := by
  induction l with
  | nil => simp [insertUnique]
  | cons y ys ih =>
    by_cases hxy : x < y
    · simp [insertUnique, hxy]
    · by_cases hxe : x = y
      · subst hxe
        rw [show insertUnique x (x :: ys) = x :: ys by
          simp [insertUnique, hxy]]
        simp only [List.mem_cons]
        tauto
      · rw [show insertUnique x (y :: ys) = y :: insertUnique x ys by
          simp only [insertUnique]; rw [if_neg hxy, if_neg hxe]]
        simp only [List.mem_cons, ih]
        tauto

theorem sorted_insertUnique (x : Nat) (l : List Nat) (h : l.Sorted (· < ·)) :
    (insertUnique x l).Sorted (· < ·) := by
  induction l with
  | nil => simp [insertUnique]
  | cons y ys ih =>
    rw [List.sorted_cons] at h
    obtain ⟨hy, hys⟩ := h
    by_cases hxy : x < y
    · rw [show insertUnique x (y :: ys) = x :: y :: ys by
        simp only [insertUnique]; rw [if_pos hxy]]
      rw [List.sorted_cons]
      refine ⟨?_, List.sorted_cons.2 ⟨hy, hys⟩⟩
      intro b hb
      rcases List.mem_cons.1 hb with rfl | hb
      · exact hxy
      · exact lt_trans hxy (hy b hb)
    · by_cases hxe : x = y
      · subst hxe
        rw [show insertUnique x (x :: ys) = x :: ys by
          simp [insertUnique, hxy]]
        exact List.sorted_cons.2 ⟨hy, hys⟩
      · have hyx : y < x := by omega
        rw [show insertUnique x (y :: ys) = y :: insertUnique x ys by
          simp only [insertUnique]; rw [if_neg hxy, if_neg hxe]]
        rw [List.sorted_cons]
        refine ⟨?_, ih hys⟩
        intro b hb
        rcases (mem_insertUnique b x ys).1 hb with rfl | hb
        · exact hyx
        · exact hy b hb

theorem mem_uniqueSorted (a : Nat) (l : List Nat) :
    a ∈ uniqueSorted l ↔ a ∈ l := by
  induction l with
  | nil => simp [uniqueSorted]
  | cons x xs ih =>
    simp only [uniqueSorted, List.foldr_cons] at *
    rw [mem_insertUnique, ih, List.mem_cons]

theorem sorted_uniqueSorted (l : List Nat) : (uniqueSorted l).Sorted (· < ·) := by
  induction l with
  | nil => simp [uniqueSorted]
  | cons x xs ih =>
    simp only [uniqueSorted, List.foldr_cons] at *
    exact sorted_insertUnique x _ ih

theorem uniqueSorted_ne_nil (l : List Nat) (h : l ≠ []) : uniqueSorted l ≠ [] := by
  obtain ⟨a, t, rfl⟩ := List.exists_cons_of_ne_nil h
  intro hcon
  have : a ∈ uniqueSorted (a :: t) := (mem_uniqueSorted a _).2 (List.mem_cons_self a t)
  rw [hcon] at this
  exact List.not_mem_nil a this

theorem argmaxFirst_eq_none (l : List Nat) : argmaxFirst l = none ↔ l = [] := by
  cases l with
  | nil => simp [argmaxFirst]
  | cons x xs =>
    constructor
    · intro h
      cases hx : argmaxFirst xs with
      | none =>
        simp only [argmaxFirst, hx] at h
        exact absurd h (by simp)
      | some j =>
        simp only [argmaxFirst, hx] at h
        by_cases hc : x < xs.getD j 0
        · rw [if_pos hc] at h; exact absurd h (by simp)
        · rw [if_neg hc] at h; exact absurd h (by simp)
    · intro h; exact absurd h (List.cons_ne_nil x xs)

theorem argmaxFirst_isSome (l : List Nat) (h : l ≠ []) : ∃ i, argmaxFirst l = some i := by
  cases hx : argmaxFirst l with
  | none => exact absurd ((argmaxFirst_eq_none l).1 hx) h
  | some i => exact ⟨i, rfl⟩

theorem argmaxFirst_lt_length (l : List Nat) (i : Nat) (h : argmaxFirst l = some i) :
    i < l.length := by
  induction l generalizing i with
  | nil => simp [argmaxFirst] at h
  | cons x xs ih =>
    cases hx : argmaxFirst xs with
    | none =>
      simp only [argmaxFirst, hx, Option.some.injEq] at h
      subst h; simp
    | some j =>
      simp only [argmaxFirst, hx] at h
      by_cases hc : x < xs.getD j 0
      · rw [if_pos hc] at h
        simp only [Option.some.injEq] at h
        subst h
        simpa using ih j hx
      · rw [if_neg hc] at h
        simp only [Option.some.injEq] at h
        subst h; simp

theorem argmaxFirst_le (l : List Nat) (i : Nat) (h : argmaxFirst l = some i) :
    ∀ j < l.length, l.getD j 0 ≤ l.getD i 0 := by
  induction l generalizing i with
  | nil => simp [argmaxFirst] at h
  | cons x xs ih =>
    cases hx : argmaxFirst xs with
    | none =>
      have hnil : xs = [] := (argmaxFirst_eq_none xs).1 hx
      simp only [argmaxFirst, hx, Option.some.injEq] at h
      subst h
      subst hnil
      intro j hj
      have hj0 : j = 0 := by simp at hj; omega
      subst hj0
      exact le_refl _
    | some j0 =>
      simp only [argmaxFirst, hx] at h
      by_cases hc : x < xs.getD j0 0
      · rw [if_pos hc] at h
        simp only [Option.some.injEq] at h
        subst h
        intro j hj
        cases j with
        | zero => simpa using le_of_lt hc
        | succ j' =>
          have := ih j0 hx j' (by simpa using hj)
          simpa using this
      · rw [if_neg hc] at h
        simp only [Option.some.injEq] at h
        subst h
        intro j hj
        cases j with
        | zero => simp
        | succ j' =>
          have h1 := ih j0 hx j' (by simpa using hj)
          have h2 : xs.getD j0 0 ≤ x := le_of_not_lt hc
          simpa using le_trans h1 h2

theorem argmaxFirst_first (l : List Nat) (i : Nat) (h : argmaxFirst l = some i) :
    ∀ j < i, l.getD j 0 < l.getD i 0 := by
  induction l generalizing i with
  | nil => simp [argmaxFirst] at h
  | cons x xs ih =>
    cases hx : argmaxFirst xs with
    | none =>
      simp only [argmaxFirst, hx, Option.some.injEq] at h
      subst h
      intro j hj
      omega
    | some j0 =>
      simp only [argmaxFirst, hx] at h
      by_cases hc : x < xs.getD j0 0
      · rw [if_pos hc] at h
        simp only [Option.some.injEq] at h
        subst h
        intro j hj
        cases j with
        | zero => simpa using hc
        | succ j' =>
          have := ih j0 hx j' (by omega)
          simpa using this
      · rw [if_neg hc] at h
        simp only [Option.some.injEq] at h
        subst h
        intro j hj
        omega

theorem except_bind_eq {ε α β : Type} (x : Except ε α) (f : α → Except ε β) :
    (x >>= f) = (match x with | .error e => .error e | .ok a => f a) := by
  cases x <;> rfl

theorem mapM_nil_eq {ε α β : Type} (f : α → Except ε β) :
    ([] : List α).mapM f = .ok [] := rfl

theorem mapM_cons_eq {ε α β : Type} (f : α → Except ε β) (a : α) (t : List α) :
    (a :: t).mapM f =
      (match f a with
       | .error e => .error e
       | .ok b =>
         match t.mapM f with
         | .error e => .error e
         | .ok bs => .ok (b :: bs)) := by
  rw [List.mapM_cons]
  cases f a <;> cases t.mapM f <;> rfl

theorem mapM_ok_length {ε α β : Type} (f : α → Except ε β) (l : List α) (out : List β)
    (h : l.mapM f = .ok out) : out.length = l.length := by
  induction l generalizing out with
  | nil =>
    rw [mapM_nil_eq] at h
    simp only [Except.ok.injEq] at h
    subst h
    rfl
  | cons a t ih =>
    cases hfa : f a with
    | error e =>
      simp only [mapM_cons_eq, hfa] at h
      exact Except.noConfusion h
    | ok b =>
      cases hft : t.mapM f with
      | error e =>
        simp only [mapM_cons_eq, hfa, hft] at h
        exact Except.noConfusion h
      | ok bs =>
        simp only [mapM_cons_eq, hfa, hft, Except.ok.injEq] at h
        subst h
        simp [ih bs hft]

theorem mapM_ok_mem {ε α β : Type} (f : α → Except ε β) (l : List α) (out : List β)
    (h : l.mapM f = .ok out) : ∀ b ∈ out, ∃ a ∈ l, f a = .ok b := by
  induction l generalizing out with
  | nil =>
    rw [mapM_nil_eq] at h
    simp only [Except.ok.injEq] at h
    subst h
    intro b hb
    exact absurd hb (List.not_mem_nil b)
  | cons a t ih =>
    cases hfa : f a with
    | error e =>
      simp only [mapM_cons_eq, hfa] at h
      exact Except.noConfusion h
    | ok b0 =>
      cases hft : t.mapM f with
      | error e =>
        simp only [mapM_cons_eq, hfa, hft] at h
        exact Except.noConfusion h
      | ok bs =>
        simp only [mapM_cons_eq, hfa, hft, Except.ok.injEq] at h
        subst h
        intro b hb
        rcases List.mem_cons.1 hb with rfl | hb
        · exact ⟨a, List.mem_cons_self a t, hfa⟩
        · obtain ⟨a', ha', hfa'⟩ := ih bs hft b hb
          exact ⟨a', List.mem_cons_of_mem a ha', hfa'⟩

theorem mapM_ok_of_forall {ε α β : Type} (f : α → Except ε β) (l : List α)
    (h : ∀ a ∈ l, ∃ b, f a = .ok b) :
    ∃ out, l.mapM f = .ok out ∧ out.length = l.length := by
  induction l with
  | nil => exact ⟨[], mapM_nil_eq f, rfl⟩
  | cons a t ih =>
    obtain ⟨b, hb⟩ := h a (List.mem_cons_self a t)
    obtain ⟨bs, hbs, hlen⟩ := ih fun a' ha' => h a' (List.mem_cons_of_mem a ha')
    refine ⟨b :: bs, ?_, by simp [hlen]⟩
    simp only [mapM_cons_eq, hb, hbs]

theorem mapM_cons_error {ε α β : Type} (f : α → Except ε β) (a : α) (t : List α) (e : ε)
    (h : f a = .error e) : (a :: t).mapM f = .error e := by
  simp only [mapM_cons_eq, h]

theorem resyncTypes_ok_of_le (types : List Int) (n : Nat) (h : n ≤ types.length) :
    resyncTypes types n = .ok (types.take n) := by
  induction n with
  | zero => rfl
  | succ m ih =>
    have hmlt : m < types.length := h
    unfold resyncTypes at ih ⊢
    rw [List.range_succ, List.mapM_append _, ih (Nat.le_of_succ_le h)]
    simp only [except_bind_eq, mapM_cons_eq, mapM_nil_eq,
      List.getElem?_eq_getElem hmlt]
    rw [List.take_succ, List.getElem?_eq_getElem hmlt]
    rfl

theorem resyncTypes_error_of_gt (types : List Int) (n : Nat) (h : types.length < n) :
    resyncTypes types n = .error .indexError := by
  induction n with
  | zero => omega
  | succ m ih =>
    by_cases hm : types.length < m
    · unfold resyncTypes at ih ⊢
      rw [List.range_succ, List.mapM_append _, ih hm]
      rfl
    · have hml : m ≤ types.length := by omega
      have hok := resyncTypes_ok_of_le types m hml
      have hge : types.length ≤ m := by omega
      unfold resyncTypes at hok ⊢
      rw [List.range_succ, List.mapM_append _, hok]
      simp only [except_bind_eq, mapM_cons_eq, mapM_nil_eq, List.getElem?_eq_none hge]

theorem resyncTypes_ok_inv (types : List Int) (n : Nat) (out : List Int)
    (h : resyncTypes types n = .ok out) :
    n ≤ types.length ∧ out = types.take n ∧ out.length = n := by
  by_cases hn : n ≤ types.length
  · rw [resyncTypes_ok_of_le types n hn] at h
    simp only [Except.ok.injEq] at h
    subst h
    exact ⟨hn, rfl, by rw [List.length_take]; omega⟩
  · rw [resyncTypes_error_of_gt types n (by omega)] at h
    exact Except.noConfusion h

theorem mem_dropZeros (a : Nat) (l : List Nat) :
    a ∈ dropZeros l ↔ a ∈ l ∧ a ≠ 0 := by
  simp [dropZeros, List.mem_filter]

theorem vote_spec (vals : List Nat) (hne : vals ≠ []) :
    ∃ i, argmaxFirst ((uniqueSorted vals).map fun t => vals.count t) = some i ∧
      (uniqueSorted vals).getD i 0 ∈ vals ∧
      (∀ v ∈ vals, vals.count v ≤ vals.count ((uniqueSorted vals).getD i 0)) ∧
      (∀ v ∈ vals, vals.count v = vals.count ((uniqueSorted vals).getD i 0) →
        (uniqueSorted vals).getD i 0 ≤ v) := by
  have hUne : uniqueSorted vals ≠ [] := uniqueSorted_ne_nil vals hne
  have hCne : ((uniqueSorted vals).map fun t => vals.count t) ≠ [] := by
    intro hc
    rw [List.map_eq_nil_iff] at hc
    exact hUne hc
  obtain ⟨i, hi⟩ := argmaxFirst_isSome _ hCne
  have hlen : i < ((uniqueSorted vals).map fun t => vals.count t).length :=
    argmaxFirst_lt_length _ i hi
  have hiU : i < (uniqueSorted vals).length := by simpa using hlen
  have hwW : (uniqueSorted vals).getD i 0 = (uniqueSorted vals)[i] :=
    List.getD_eq_getElem _ 0 hiU
  have hwmem : (uniqueSorted vals).getD i 0 ∈ vals := by
    rw [hwW]
    exact (mem_uniqueSorted _ _).1 (List.getElem_mem hiU)
  have hcount : ∀ j (hj : j < (uniqueSorted vals).length),
      ((uniqueSorted vals).map fun t => vals.count t).getD j 0 =
        vals.count (uniqueSorted vals)[j] := by
    intro j hj
    rw [List.getD_eq_getElem _ 0 (by simpa using hj), List.getElem_map]
  refine ⟨i, hi, hwmem, ?_, ?_⟩
  · intro v hv
    have hvU : v ∈ uniqueSorted vals := (mem_uniqueSorted _ _).2 hv
    obtain ⟨jf, hjf⟩ := List.mem_iff_get.mp hvU
    have hle := argmaxFirst_le _ i hi jf (by simp only [List.length_map]; exact jf.isLt)
    rw [hcount jf jf.isLt, hcount i hiU] at hle
    rw [← hwW] at hle
    simp only [List.get_eq_getElem] at hjf
    rw [hjf] at hle
    exact hle
  · intro v hv hcnt
    have hvU : v ∈ uniqueSorted vals := (mem_uniqueSorted _ _).2 hv
    obtain ⟨jf, hjf⟩ := List.mem_iff_get.mp hvU
    simp only [List.get_eq_getElem] at hjf
    rcases Nat.lt_or_ge (jf : Nat) i with hji | hij
    · exfalso
      have hflt := argmaxFirst_first _ i hi jf hji
      rw [hcount jf jf.isLt, hcount i hiU] at hflt
      rw [← hwW, hjf] at hflt
      omega
    · rcases Nat.eq_or_lt_of_le hij with heq | hlt
      · rw [hwW, ← hjf]
        exact le_of_eq (by congr 1)
      · have := List.Sorted.rel_get_of_lt (sorted_uniqueSorted vals)
          (a := ⟨i, hiU⟩) (b := ⟨jf, jf.isLt⟩) hlt
        simp only [List.get_eq_getElem] at this
        rw [hjf] at this
        rw [hwW]
        exact le_of_lt this

theorem extractCell_err_of_gather_none (im tm : Map2) (label : Nat)
    (h : maskGather tm im label = none) :
    extractCell im tm label = .error .indexMismatch := by
  simp only [extractCell, h]

theorem extractCell_ok_of_vote (im tm : Map2) (label : Nat) (g : List Nat)
    (hg : maskGather tm im label = some g) (hne : dropZeros g ≠ []) :
    ∃ r, extractCell im tm label = .ok r ∧ r.ty ∈ dropZeros g ∧
      (∀ v ∈ dropZeros g, (dropZeros g).count v ≤ (dropZeros g).count r.ty) ∧
      (∀ v ∈ dropZeros g, (dropZeros g).count v = (dropZeros g).count r.ty →
        r.ty ≤ v) := by
  obtain ⟨i, hi, hmem, hmax, htie⟩ := vote_spec (dropZeros g) hne
  refine ⟨⟨roundHalfEven ((maskPositions im label).map Prod.snd).sum
      (maskPositions im label).length,
    roundHalfEven ((maskPositions im label).map Prod.fst).sum
      (maskPositions im label).length,
    (uniqueSorted (dropZeros g)).getD i 0⟩, ?_, hmem, hmax, htie⟩
  simp only [extractCell, hg, hi]

theorem extractCell_ok_ty (im tm : Map2) (label : Nat) (r : CellRecord)
    (h : extractCell im tm label = .ok r) :
    ∃ g, maskGather tm im label = some g ∧ r.ty ∈ dropZeros g := by
  cases hg : maskGather tm im label with
  | none =>
    rw [extractCell_err_of_gather_none im tm label hg] at h
    exact Except.noConfusion h
  | some g =>
    refine ⟨g, rfl, ?_⟩
    cases ha : argmaxFirst ((uniqueSorted (dropZeros g)).map fun t =>
        (dropZeros g).count t) with
    | none =>
      simp only [extractCell, hg, ha] at h
      exact Except.noConfusion h
    | some i =>
      simp only [extractCell, hg, ha, Except.ok.injEq] at h
      have hlen : i < ((uniqueSorted (dropZeros g)).map fun t =>
          (dropZeros g).count t).length := argmaxFirst_lt_length _ i ha
      have hiU : i < (uniqueSorted (dropZeros g)).length := by simpa using hlen
      have : r.ty = (uniqueSorted (dropZeros g)).getD i 0 := by rw [← h]
      rw [this, List.getD_eq_getElem _ 0 hiU]
      exact (mem_uniqueSorted _ _).1 (List.getElem_mem hiU)

theorem extract_mem_ty (im tm : Map2) (recs : List CellRecord)
    (h : extract im tm = .ok recs) :
    ∀ r ∈ recs, 1 ≤ r.ty := by
  intro r hr
  obtain ⟨label, _, hcell⟩ := mapM_ok_mem _ _ _ h r hr
  obtain ⟨g, _, hmem⟩ := extractCell_ok_ty im tm label r hcell
  have := (mem_dropZeros r.ty g).1 hmem
  omega

theorem applyWrites_cons {α β : Type} [DecidableEq α] (f : α → Option β) (w : α × β)
    (ws : List (α × β)) :
    applyWrites f (w :: ws) = applyWrites (Function.update f w.1 (some w.2)) ws := rfl

theorem applyWrites_apply {α β : Type} [DecidableEq α] (f : α → Option β) (ws : List (α × β))
    (a : α) :
    applyWrites f ws a =
      (match lookupLast ws a with | some v => some v | none => f a) := by
  induction ws generalizing f with
  | nil => rfl
  | cons w ws ih =>
    rw [applyWrites_cons, ih]
    cases hl : lookupLast ws a with
    | some v => simp only [lookupLast, hl]
    | none =>
      simp only [lookupLast, hl]
      by_cases hw : w.1 = a
      · rw [if_pos hw, Function.update_apply, if_pos hw.symm]
      · rw [if_neg hw, Function.update_apply, if_neg (fun h => hw h.symm)]

theorem applyWrites_idem {α β : Type} [DecidableEq α] (f : α → Option β) (ws : List (α × β)) :
    applyWrites (applyWrites f ws) ws = applyWrites f ws := by
  funext a
  simp only [applyWrites_apply]
  cases hl : lookupLast ws a with
  | some v => simp only [hl]
  | none => simp only [hl, applyWrites_apply]

theorem cacheDataset_eq {Img : Type} (convertRGB : Img → Img) (st : CacheState Img)
    (ss : List (Sample Img)) :
    cacheDataset convertRGB st ss =
      (⟨applyWrites st.images (imgWrites convertRGB ss),
        applyWrites st.cacheAnnot (annWrites ss)⟩, buildOk ss) := by
  induction ss generalizing st with
  | nil => rfl
  | cons s ss ih =>
    cases hx : extract s.inst_map s.type_map with
    | error e =>
      simp only [cacheDataset, imgWrites, annWrites, buildOk, hx]
      rfl
    | ok recs =>
      simp only [cacheDataset, imgWrites, annWrites, buildOk, hx]
      rw [ih]
      rfl

theorem stack_ok (t : Tensor) (rest : List Tensor)
    (h : ∀ u ∈ t :: rest, u.shape = t.shape) :
    stack (t :: rest) =
      some ⟨(t :: rest).length :: t.shape, ((t :: rest).map Tensor.data).flatten⟩ := by
  simp only [stack]
  rw [if_pos]
  exact List.all_eq_true.2 fun u hu => decide_eq_true (h u hu)

theorem extractionLabels_sorted (im : Map2) : (extractionLabels im).Sorted (· < ·) :=
  List.Pairwise.filter _ (sorted_uniqueSorted _)

theorem mem_extractionLabels (a : Nat) (im : Map2) :
    a ∈ extractionLabels im ↔ a ≠ 0 ∧ ∃ row ∈ im, a ∈ row := by
  simp only [extractionLabels, List.mem_filter, mem_uniqueSorted, List.mem_flatten,
    decide_eq_true_eq]
  tauto

theorem maskGather_none (tm im : Map2) (label : Nat)
    (h : rowProfile tm ≠ rowProfile im) : maskGather tm im label = none := by
  simp only [maskGather, if_neg h]

theorem maskGather_some (tm im : Map2) (label : Nat)
    (h : rowProfile tm = rowProfile im) :
    maskGather tm im label = some (maskTypeVals tm im label) := by
  simp only [maskGather, if_pos h]

theorem mapM_ok_getD {ε α β : Type} (f : α → Except ε β) (l : List α) (out : List β)
    (h : l.mapM f = .ok out) (a0 : α) (b0 : β) :
    ∀ i < l.length, f (l.getD i a0) = .ok (out.getD i b0) := by
  induction l generalizing out with
  | nil => intro i hi; exact absurd hi (by simp)
  | cons a t ih =>
    cases hfa : f a with
    | error e =>
      simp only [mapM_cons_eq, hfa] at h
      exact Except.noConfusion h
    | ok b =>
      cases hft : t.mapM f with
      | error e =>
        simp only [mapM_cons_eq, hfa, hft] at h
        exact Except.noConfusion h
      | ok bs =>
        simp only [mapM_cons_eq, hfa, hft, Except.ok.injEq] at h
        subst h
        intro i hi
        cases i with
        | zero => simpa using hfa
        | succ j =>
          have := ih bs hft j (by simpa using hi)
          simpa using this

theorem getItem_eq {Img : Type} (images : List String) (cache_images : String → Option Img)
    (cacheAnnot : String → Option (List CellRecord)) (ns : Bool) (nm : Img → Img)
    (t : Img → List (Int × Int) → Img × List (Int × Int)) (idx : Nat) (stem : String)
    (img : Img) (annot : List CellRecord)
    (h1 : images[idx]? = some stem) (h2 : cache_images stem = some img)
    (h3 : cacheAnnot stem = some annot) :
    getItem images cache_images cacheAnnot ns nm (some t) idx =
      (match resyncTypes (annot.map fun r => (r.ty : Int) - 1)
          (t (if ns then nm img else img)
            (annot.map fun r => ((r.x : Int), (r.y : Int)))).2.length with
       | .error e => .error e
       | .ok types2 =>
         .ok ((t (if ns then nm img else img)
             (annot.map fun r => ((r.x : Int), (r.y : Int)))).1,
           (t (if ns then nm img else img)
             (annot.map fun r => ((r.x : Int), (r.y : Int)))).2,
           types2, stem)) := by
  simp only [getItem, h1, h2, h3]

/-! ### Claim theorems -/

/-- Claim C2, counterexample: the extraction loop does NOT return one record
per distinct nonzero instance label when some instance overlaps no nonzero
type-map pixel.  On the 1×1 instance map `[[1]]` (one distinct nonzero
label) with the all-zero type map `[[0]]`, the loop raises (`np.argmax` of
an empty sequence) instead of emitting one record. -/
theorem claim_C2_counterexample :
    extract [[1]] [[0]] = .error .emptyArgmax ∧ extractionLabels [[1]] = [1] := by
  decide

/-- Claim C2 (amended): for equal-shape maps in which every distinct
nonzero instance label overlaps at least one nonzero type-map pixel, the
extraction loop returns exactly one record per distinct nonzero label. -/
theorem claim_C2 (im tm : Map2) (hshape : rowProfile tm = rowProfile im)
    (hnz : ∀ label ∈ extractionLabels im, dropZeros (maskTypeVals tm im label) ≠ []) :
    ∃ recs, extract im tm = .ok recs ∧ recs.length = (extractionLabels im).length := by
  have hall : ∀ label ∈ extractionLabels im, ∃ r, extractCell im tm label = .ok r := by
    intro label hl
    obtain ⟨r, hr, -, -, -⟩ := extractCell_ok_of_vote im tm label (maskTypeVals tm im label)
      (maskGather_some tm im label hshape) (hnz label hl)
    exact ⟨r, hr⟩
  obtain ⟨out, hout, hlen⟩ := mapM_ok_of_forall _ _ hall
  exact ⟨out, hout, hlen⟩

/-- Claim C2, witness: on `inst_map = [[1,2]]`, `type_map = [[3,7]]` each
of the two labels overlaps a nonzero type pixel, so extraction returns
exactly two records. -/
theorem claim_C2_witness :
    ∃ recs, extract [[1, 2]] [[3, 7]] = .ok recs ∧
      recs.length = (extractionLabels [[1, 2]]).length :=
  claim_C2 [[1, 2]] [[3, 7]] (by decide) (by decide)

/-- Claim C3: for every instance whose overlapping nonzero type-map pixels
form a non-empty multiset, the extracted record's `type_id` has the
highest pixel count among those values, and on a count tie the smallest
type value wins (`np.unique` sorts ascending and `np.argmax` picks the
first maximal count). -/
theorem claim_C3 (im tm : Map2) (label : Nat) (g : List Nat)
    (hg : maskGather tm im label = some g) (hne : dropZeros g ≠ []) :
    ∃ r, extractCell im tm label = .ok r ∧ r.ty ∈ dropZeros g ∧
      (∀ v ∈ dropZeros g, (dropZeros g).count v ≤ (dropZeros g).count r.ty) ∧
      (∀ v ∈ dropZeros g, (dropZeros g).count v = (dropZeros g).count r.ty →
        r.ty ≤ v) :=
  extractCell_ok_of_vote im tm label g hg hne

/-- Claim C3, witness: the spec's two examples.  An instance with type
pixels `{1: 5 px, 2: 3 px}` votes type 1; an instance with the tie
`{1: 1 px, 2: 1 px}` also votes type 1 (the smaller value). -/
theorem claim_C3_witness :
    (∃ r, extractCell [[1, 1, 1, 1, 1, 1, 1, 1]] [[1, 1, 1, 1, 1, 2, 2, 2]] 1 = .ok r ∧
      r.ty ∈ dropZeros [1, 1, 1, 1, 1, 2, 2, 2] ∧
      (∀ v ∈ dropZeros [1, 1, 1, 1, 1, 2, 2, 2],
        (dropZeros [1, 1, 1, 1, 1, 2, 2, 2]).count v ≤
          (dropZeros [1, 1, 1, 1, 1, 2, 2, 2]).count r.ty) ∧
      (∀ v ∈ dropZeros [1, 1, 1, 1, 1, 2, 2, 2],
        (dropZeros [1, 1, 1, 1, 1, 2, 2, 2]).count v =
          (dropZeros [1, 1, 1, 1, 1, 2, 2, 2]).count r.ty → r.ty ≤ v)) ∧
    (∃ r, extractCell [[1, 1]] [[1, 2]] 1 = .ok r ∧ r.ty ∈ dropZeros [1, 2] ∧
      (∀ v ∈ dropZeros [1, 2],
        (dropZeros [1, 2]).count v ≤ (dropZeros [1, 2]).count r.ty) ∧
      (∀ v ∈ dropZeros [1, 2],
        (dropZeros [1, 2]).count v = (dropZeros [1, 2]).count r.ty → r.ty ≤ v)) :=
  ⟨claim_C3 [[1, 1, 1, 1, 1, 1, 1, 1]] [[1, 1, 1, 1, 1, 2, 2, 2]] 1
      [1, 1, 1, 1, 1, 2, 2, 2] (by decide) (by decide),
    claim_C3 [[1, 1]] [[1, 2]] 1 [1, 2] (by decide) (by decide)⟩

/-- Claim C4: the extraction loop enumerates exactly the distinct nonzero
labels of the instance map in strictly ascending order (deterministically a
function of the map, independent of spatial layout), and the record
sequence follows that enumeration: on success there is one record per
label, the i-th record extracted from the i-th smallest label. -/
theorem claim_C4 (im tm : Map2) :
    (extractionLabels im).Sorted (· < ·) ∧
    (∀ a, a ∈ extractionLabels im ↔ a ≠ 0 ∧ ∃ row ∈ im, a ∈ row) ∧
    extract im tm = (extractionLabels im).mapM (extractCell im tm) ∧
    (∀ recs, extract im tm = .ok recs →
      recs.length = (extractionLabels im).length ∧
      ∀ i < (extractionLabels im).length,
        extractCell im tm ((extractionLabels im).getD i 0) =
          .ok (recs.getD i ⟨0, 0, 0⟩)) :=
  ⟨extractionLabels_sorted im, fun a => mem_extractionLabels a im, rfl,
    fun _recs h =>
      ⟨mapM_ok_length _ _ _ h, fun i hi => mapM_ok_getD _ _ _ h 0 ⟨0, 0, 0⟩ i hi⟩⟩

/-- Claim C4, witness: on `inst_map = [[0,2],[1,0]]` (labels appear in the
order 2, 1 spatially) the enumeration is `[1, 2]`, sorted ascending, and
the first record is the one extracted for label 1. -/
theorem claim_C4_witness :
    (extractionLabels [[0, 2], [1, 0]]).Sorted (· < ·) ∧
    ([⟨0, 1, 4⟩, ⟨1, 0, 3⟩] : List CellRecord).length =
      (extractionLabels [[0, 2], [1, 0]]).length ∧
    extractCell [[0, 2], [1, 0]] [[3, 3], [4, 4]]
        ((extractionLabels [[0, 2], [1, 0]]).getD 0 0) =
      .ok (([⟨0, 1, 4⟩, ⟨1, 0, 3⟩] : List CellRecord).getD 0 ⟨0, 0, 0⟩) := by
  have h := claim_C4 [[0, 2], [1, 0]] [[3, 3], [4, 4]]
  have h2 := h.2.2.2 [⟨0, 1, 4⟩, ⟨1, 0, 3⟩] (by decide)
  exact ⟨h.1, h2.1, h2.2 0 (by decide)⟩

/-- Claim C5: every record stored by the extraction loop has a raw type id
of at least 1 (a raw 0 is never stored, because zero-valued type pixels are
dropped before the vote), and consequently every entry of the 0-based type
list that `__getitem__` produces by the subtract-1 shift is non-negative. -/
theorem claim_C5 (im tm : Map2) (recs : List CellRecord)
    (h : extract im tm = .ok recs) :
    (∀ r ∈ recs, 1 ≤ r.ty) ∧
    (∀ (Img : Type) (images : List String) (cache_images : String → Option Img)
      (cacheAnnot : String → Option (List CellRecord)) (ns : Bool) (nm : Img → Img)
      (transforms : Option (Img → List (Int × Int) → Img × List (Int × Int)))
      (idx : Nat) (stem : String)
      (out : Img × List (Int × Int) × List Int × String),
      images[idx]? = some stem → cacheAnnot stem = some recs →
      getItem images cache_images cacheAnnot ns nm transforms idx = .ok out →
      ∀ v ∈ out.2.2.1, 0 ≤ v) := by
  have hty := extract_mem_ty im tm recs h
  refine ⟨hty, ?_⟩
  intro Img images cache_images cacheAnnot ns nm transforms idx stem out h1 h3 hout
  have hmem : ∀ v ∈ out.2.2.1, v ∈ recs.map fun r => (r.ty : Int) - 1 := by
    cases h2 : cache_images stem with
    | none =>
      simp only [getItem, h1, h2] at hout
      exact Except.noConfusion hout
    | some img =>
      cases transforms with
      | none =>
        simp only [getItem, h1, h2, h3, Except.ok.injEq] at hout
        subst hout
        intro v hv
        exact hv
      | some t =>
        rw [getItem_eq images cache_images cacheAnnot ns nm t idx stem img recs
          h1 h2 h3] at hout
        cases hres : resyncTypes (recs.map fun r => (r.ty : Int) - 1)
            (t (if ns then nm img else img)
              (recs.map fun r => ((r.x : Int), (r.y : Int)))).2.length with
        | error e =>
          simp only [hres] at hout
          exact Except.noConfusion hout
        | ok types2 =>
          simp only [hres, Except.ok.injEq] at hout
          subst hout
          obtain ⟨-, htake, -⟩ := resyncTypes_ok_inv _ _ _ hres
          intro v hv
          simp only at hv
          rw [htake] at hv
          exact List.mem_of_mem_take hv
  intro v hv
  obtain ⟨r, hr, hrv⟩ := List.mem_map.1 (hmem v hv)
  have h1r : (1 : Int) ≤ (r.ty : Int) := by exact_mod_cast hty r hr
  omega

/-- Claim C5, witness: on `inst_map = [[1]]`, `type_map = [[5]]` the single
stored record has raw type 5 ≥ 1. -/
theorem claim_C5_witness : 1 ≤ (CellRecord.mk 0 0 5).ty :=
  (claim_C5 [[1]] [[5]] [⟨0, 0, 5⟩] (by decide)).1 ⟨0, 0, 5⟩ (by decide)

/-- Claim C1, counterexample: when the injected transform drops the 0-th of
two keypoints, `__getitem__` pairs the lone survivor with `types[0]` (the
0-based type of the DROPPED record, i.e. a prefix of the original type
list) rather than with the survivor's own original-position type
`types[1]`.  Cached records `[(0,0,10), (5,5,20)]` give 0-based types
`[9, 19]`; the survivor `(5,5)` gets type 9, not the 19 that positional
matching of survivors would give. -/
theorem claim_C1_counterexample :
    @getItem Nat ["a"] (fun _ => some 0)
        (fun _ => some [⟨0, 0, 10⟩, ⟨5, 5, 20⟩]) false id
        (some fun i ks => (i, ks.eraseIdx 0)) 0 =
      .ok (0, [(5, 5)], [9], "a") ∧
    ([9] : List Int) ≠
      ((([⟨0, 0, 10⟩, ⟨5, 5, 20⟩] : List CellRecord).map
        fun r => (r.ty : Int) - 1).eraseIdx 0) := by
  exact ⟨by decide, by decide⟩

/-- Claim C1 (amended): when the injected transform drops exactly the i-th
keypoint, the returned type list has length (original − 1), but its entries
are the FIRST (original − 1) entries of the original 0-based type list — a
positional prefix (`types[idx]` for the indices of the shortened keypoint
list) — not the surviving records' types matched by original position. -/
theorem claim_C1 {Img : Type} (images : List String) (cache_images : String → Option Img)
    (cacheAnnot : String → Option (List CellRecord)) (ns : Bool) (nm : Img → Img)
    (t : Img → List (Int × Int) → Img × List (Int × Int)) (idx : Nat) (stem : String)
    (img : Img) (annot : List CellRecord) (i : Nat)
    (h1 : images[idx]? = some stem) (h2 : cache_images stem = some img)
    (h3 : cacheAnnot stem = some annot)
    (ht : (t (if ns then nm img else img)
        (annot.map fun r => ((r.x : Int), (r.y : Int)))).2 =
      (annot.map fun r => ((r.x : Int), (r.y : Int))).eraseIdx i)
    (hi : i < annot.length) :
    getItem images cache_images cacheAnnot ns nm (some t) idx =
      .ok ((t (if ns then nm img else img)
          (annot.map fun r => ((r.x : Int), (r.y : Int)))).1,
        (annot.map fun r => ((r.x : Int), (r.y : Int))).eraseIdx i,
        (annot.map fun r => (r.ty : Int) - 1).take (annot.length - 1), stem) ∧
    ((annot.map fun r => (r.ty : Int) - 1).take (annot.length - 1)).length =
      annot.length - 1 := by
  have hlen2 : (annot.map fun r => ((r.x : Int), (r.y : Int))).length = annot.length :=
    List.length_map ..
  have htyl : (annot.map fun r => (r.ty : Int) - 1).length = annot.length :=
    List.length_map ..
  have herase : ((annot.map fun r => ((r.x : Int), (r.y : Int))).eraseIdx i).length =
      annot.length - 1 := by
    rw [List.length_eraseIdx, hlen2, if_pos hi]
  constructor
  · rw [getItem_eq images cache_images cacheAnnot ns nm t idx stem img annot h1 h2 h3]
    rw [ht, herase]
    rw [resyncTypes_ok_of_le (annot.map fun r => (r.ty : Int) - 1) (annot.length - 1)
      (by rw [htyl]; omega)]
  · rw [List.length_take, htyl]
    omega

/-- Claim C1, witness: dropping the last of two keypoints happens to agree
with the prefix behaviour; the returned list is `[9]`, the length-1 prefix
of `[9, 19]`. -/
theorem claim_C1_witness :
    @getItem Nat ["a"] (fun _ => some 0)
        (fun _ => some [⟨0, 0, 10⟩, ⟨5, 5, 20⟩]) false id
        (some fun i ks => (i, ks.eraseIdx 1)) 0 =
      .ok (0, [((0 : Int), (0 : Int))], [(9 : Int)], "a") := by
  have h := @claim_C1 Nat ["a"] (fun _ => some 0)
    (fun _ => some [⟨0, 0, 10⟩, ⟨5, 5, 20⟩]) false id
    (fun i ks => (i, ks.eraseIdx 1)) 0 "a" 0 [⟨0, 0, 10⟩, ⟨5, 5, 20⟩] 1
    rfl rfl rfl rfl (by decide)
  exact h.1.trans (by decide)

/-- Claim C9: accessing a sample before the cache has been built fails with
the cache-miss error (`KeyError` on `self.cache_images`, the code's
realization of CacheNotReadyError); `__getitem__` contains no call to the
extraction loop, so a pre-build access never returns a sample tuple. -/
theorem claim_C9 {Img : Type} (images : List String) (ns : Bool) (nm : Img → Img)
    (transforms : Option (Img → List (Int × Int) → Img × List (Int × Int)))
    (idx : Nat) (stem : String) (h : images[idx]? = some stem) :
    getItem images (fun _ => none) (fun _ => none) ns nm transforms idx =
      .error .keyError := by
  simp only [getItem, h]

/-- Claim C9, witness: index 0 of a one-image dataset, empty caches. -/
theorem claim_C9_witness :
    @getItem Nat ["a"] (fun _ => none) (fun _ => none) false id none 0 =
      .error .keyError :=
  claim_C9 ["a"] false id none 0 "a" rfl

/-- Claim C10: if the injected transform returns strictly more keypoints
than there are cached records, `__getitem__` fails with the out-of-range
indexing error while rebuilding the type list (`types[idx]` at line 161),
and a successful return is only possible when the surviving-keypoint count
is at most the original record count, in which case the returned type list
has exactly the length of the returned detections. -/
theorem claim_C10 {Img : Type} (images : List String) (cache_images : String → Option Img)
    (cacheAnnot : String → Option (List CellRecord)) (ns : Bool) (nm : Img → Img)
    (t : Img → List (Int × Int) → Img × List (Int × Int)) (idx : Nat) (stem : String)
    (img : Img) (annot : List CellRecord)
    (h1 : images[idx]? = some stem) (h2 : cache_images stem = some img)
    (h3 : cacheAnnot stem = some annot) :
    ((t (if ns then nm img else img)
        (annot.map fun r => ((r.x : Int), (r.y : Int)))).2.length > annot.length →
      getItem images cache_images cacheAnnot ns nm (some t) idx =
        .error .indexError) ∧
    (∀ out, getItem images cache_images cacheAnnot ns nm (some t) idx = .ok out →
      (t (if ns then nm img else img)
        (annot.map fun r => ((r.x : Int), (r.y : Int)))).2.length ≤ annot.length ∧
      out.2.2.1.length = out.2.1.length) := by
  have htyl : (annot.map fun r => (r.ty : Int) - 1).length = annot.length :=
    List.length_map ..
  constructor
  · intro hgt
    rw [getItem_eq images cache_images cacheAnnot ns nm t idx stem img annot h1 h2 h3]
    rw [resyncTypes_error_of_gt _ _ (by omega)]
  · intro out hout
    rw [getItem_eq images cache_images cacheAnnot ns nm t idx stem img annot
      h1 h2 h3] at hout
    cases hres : resyncTypes (annot.map fun r => (r.ty : Int) - 1)
        (t (if ns then nm img else img)
          (annot.map fun r => ((r.x : Int), (r.y : Int)))).2.length with
    | error e =>
      simp only [hres] at hout
      exact Except.noConfusion hout
    | ok types2 =>
      simp only [hres, Except.ok.injEq] at hout
      obtain ⟨hle, -, hlen⟩ := resyncTypes_ok_inv _ _ _ hres
      subst hout
      exact ⟨by omega, hlen⟩

/-- Claim C10, witness: a transform that prepends an extra keypoint to the
single cached record's keypoint makes the access raise the indexing
error. -/
theorem claim_C10_witness :
    @getItem Nat ["a"] (fun _ => some 0) (fun _ => some [⟨1, 2, 3⟩]) false id
        (some fun i ks => (i, ((0 : Int), (0 : Int)) :: ks)) 0 =
      .error .indexError := by
  exact (@claim_C10 Nat ["a"] (fun _ => some 0) (fun _ => some [⟨1, 2, 3⟩])
    false id (fun i ks => (i, ((0 : Int), (0 : Int)) :: ks)) 0 "a" 0 [⟨1, 2, 3⟩]
    rfl rfl rfl).1 (by decide)

/-- Claim C6: the cache build is idempotent.  Running `cache_dataset` a
second time over the same sample list, starting from the cache state the
first run produced, yields exactly the same cache state (same keys, same
image and record values — each key is overwritten with an identical
recomputed value) and the same success flag. -/
theorem claim_C6 {Img : Type} (convertRGB : Img → Img) (st : CacheState Img)
    (ss : List (Sample Img)) :
    cacheDataset convertRGB (cacheDataset convertRGB st ss).1 ss =
      cacheDataset convertRGB st ss := by
  simp only [cacheDataset_eq]
  rw [applyWrites_idem, applyWrites_idem]

/-- Claim C7, counterexample: on an empty batch `collate_batch` raises
(unpacking four components of an empty `zip`) instead of returning
length-0 lists and a leading batch dimension of 0, so the claim fails at
N = 0. -/
theorem claim_C7_counterexample :
    collate_batch [] = none := rfl

/-- Claim C7 (amended): for every NON-EMPTY batch of tuples with
identically shaped images, `collate_batch` returns the per-sample
detection lists, type lists and names unchanged and in order (three lists
of length N, the i-th entry being the i-th sample's), and a stacked image
tensor whose new leading dimension is N. -/
theorem claim_C7 (b0 : Tensor × List (Int × Int) × List Int × String)
    (rest : List (Tensor × List (Int × Int) × List Int × String))
    (hsh : ∀ b ∈ b0 :: rest, b.1.shape = b0.1.shape) :
    ∃ imgs, collate_batch (b0 :: rest) =
        some (imgs, (b0 :: rest).map fun b => b.2.1,
          (b0 :: rest).map fun b => b.2.2.1,
          (b0 :: rest).map fun b => b.2.2.2) ∧
      imgs.shape = (b0 :: rest).length :: b0.1.shape ∧
      ((b0 :: rest).map fun b => b.2.1).length = (b0 :: rest).length ∧
      ((b0 :: rest).map fun b => b.2.2.1).length = (b0 :: rest).length ∧
      ((b0 :: rest).map fun b => b.2.2.2).length = (b0 :: rest).length := by
  have hmap : (b0 :: rest).map (fun b => b.1) = b0.1 :: rest.map fun b => b.1 := rfl
  have hall : ∀ u ∈ b0.1 :: rest.map (fun b => b.1), u.shape = b0.1.shape := by
    intro u hu
    rcases List.mem_cons.1 hu with rfl | hu
    · rfl
    · obtain ⟨b, hb, rfl⟩ := List.mem_map.1 hu
      exact hsh b (List.mem_cons_of_mem b0 hb)
  have hstack := stack_ok b0.1 (rest.map fun b => b.1) hall
  refine ⟨⟨(b0.1 :: rest.map fun b => b.1).length :: b0.1.shape,
    ((b0.1 :: rest.map fun b => b.1).map Tensor.data).flatten⟩, ?_, ?_, ?_, ?_, ?_⟩
  · simp only [collate_batch, hmap, hstack]
  · simp
  · simp
  · simp
  · simp

/-- Claim C7, witness: the two-sample batch with equal image shapes and
detection counts 2 and 0 collates to two aligned per-sample lists and
leading dimension 2. -/
theorem claim_C7_witness :
    ∃ imgs, collate_batch
        [(⟨[3, 2], [0, 0, 0, 0, 0, 0]⟩, [((1 : Int), (2 : Int)), (3, 4)], [(0 : Int), 1], "a"),
         (⟨[3, 2], [1, 1, 1, 1, 1, 1]⟩, [], [], "b")] =
        some (imgs, [[((1 : Int), (2 : Int)), (3, 4)], []], [[(0 : Int), 1], []],
          ["a", "b"]) ∧
      imgs.shape = [2, 3, 2] := by
  obtain ⟨imgs, hc, hs, -, -, -⟩ := claim_C7
    (⟨[3, 2], [0, 0, 0, 0, 0, 0]⟩, [((1 : Int), (2 : Int)), (3, 4)], [(0 : Int), 1], "a")
    [(⟨[3, 2], [1, 1, 1, 1, 1, 1]⟩, [], [], "b")] (by decide)
  exact ⟨imgs, by simpa using hc, by simpa using hs⟩

/-- Claim C8, counterexample: a shape mismatch between the two maps is NOT
always detected.  With the all-zero 1×1 instance map and a 2×1 type map
the per-label loop never runs, so extraction silently returns the empty
record list instead of failing. -/
theorem claim_C8_counterexample :
    rowProfile [[0], [0]] ≠ rowProfile [[0]] ∧ extract [[0]] [[0], [0]] = .ok [] := by
  decide

/-- Claim C8 (amended): when the two maps' shapes differ AND the instance
map contains at least one nonzero label, extraction fails — with numpy's
boolean-index shape error (the code's realization of ShapeMismatchError),
raised at `type_map[inst_map == inst_id]`; with an all-zero instance map
the mismatch goes undetected and an empty record list is returned. -/
theorem claim_C8 (im tm : Map2) (hsh : rowProfile tm ≠ rowProfile im)
    (hnz : ∃ a, a ≠ 0 ∧ ∃ row ∈ im, a ∈ row) :
    extract im tm = .error .indexMismatch := by
  obtain ⟨a, ha0, hrow⟩ := hnz
  have hmem : a ∈ extractionLabels im := (mem_extractionLabels a im).2 ⟨ha0, hrow⟩
  have hne : extractionLabels im ≠ [] := List.ne_nil_of_mem hmem
  obtain ⟨l0, t0, heq⟩ := List.exists_cons_of_ne_nil hne
  unfold extract
  rw [heq]
  exact mapM_cons_error _ l0 t0 _
    (extractCell_err_of_gather_none im tm l0 (maskGather_none tm im l0 hsh))

/-- Claim C8, witness: a 1×1 instance map holding label 1 against a 2×1
type map fails with the boolean-index shape error. -/
theorem claim_C8_witness :
    extract [[1]] [[0], [0]] = .error .indexMismatch :=
  claim_C8 [[1]] [[0], [0]] (by decide) ⟨1, by decide, ⟨[1], by decide, by decide⟩⟩

end SegDataset
